import Mathlib

/-!
Shallow embedding of the Bootstrap Compiler
(src/Bootstrap Compiler/Bootstrap Compiler.cpp).

Text is modelled as `List Char`; `String.data` is used to write concrete
inputs.  Each definition mirrors one function of the C++ source:

* `split_on` — the `std::getline` loop with an arbitrary delimiter
  (used with `\n` for `split_lines` and with `,` for argument splitting);
* `trim` — the two `erase`/`find_first_not_of`/`find_last_not_of` calls;
* `find_marker` — `line.find("??")` returning the text before the first
  occurrence and the text after it;
* `strip_wrap` — the `rest.front()=='(' && rest.back()==')'` stripping;
* `parse_entity_line`, `parse_entities_structured`, `parse_imports`,
  `parse_references` — the functions of the same names;
* `serialize_entity`, `serialize_bast` — the `debugFile <<` section of
  `Compiler::compile`;
* `compile` — `Compiler::compile`, with the file system abstracted as an
  `Option (List Char)` (none = the input could not be opened) and the
  timestamp passed as a parameter.
-/

/-- Whitespace set used by the C++ trim calls: " \t\n\r". -/
def isWS (c : Char) : Bool :=
  c = ' ' || c = '\t' || c = '\n' || c = '\r'

/-- The `while (std::getline(stream, tok, d))` loop: split on a delimiter,
a trailing delimiter produces no final empty token, empty input produces
no token at all. -/
def split_on (d : Char) : List Char → List (List Char)
  | [] => []
  | c :: cs =>
    if c = d then [] :: split_on d cs
    else
      match split_on d cs with
      | [] => [[c]]
      | l :: ls => (c :: l) :: ls

/-- Split raw text into lines (`split_lines` in the source, a `getline`
loop with the default delimiter `\n`). -/
def split_lines (text : List Char) : List (List Char) :=
  split_on '\n' text

/-- Remove the maximal trailing run of whitespace
(`token.erase(token.find_last_not_of(" \t\n\r") + 1)`). -/
def trimRight : List Char → List Char
  | [] => []
  | c :: cs =>
    match trimRight cs with
    | [] => if isWS c then [] else [c]
    | l => c :: l

/-- Remove leading and trailing whitespace: the two `token.erase` calls of
`parse_entity_line`. -/
def trim (cs : List Char) : List Char :=
  trimRight (cs.dropWhile isWS)

/-- The call `line.find("??")`: `none` when the marker is absent,
otherwise `some (before, after)` split at the FIRST occurrence,
with the two marker characters dropped. -/
def find_marker : List Char → Option (List Char × List Char)
  | [] => none
  | [_] => none
  | '?' :: '?' :: rest => some ([], rest)
  | c :: rest =>
    match find_marker rest with
    | none => none
    | some (pre, post) => some (c :: pre, post)

/-- The parenthesis stripping of `parse_entity_line`:
`if (!rest.empty() && rest.front() == '(' && rest.back() == ')')
rest = rest.substr(1, rest.size() - 2);`. -/
def strip_wrap (cs : List Char) : List Char :=
  if cs ≠ [] ∧ cs.head? = some '(' ∧ cs.getLast? = some ')' then
    (cs.drop 1).dropLast
  else cs

/-- Comma-split, trim each token, keep the non-empty ones — the
`getline(ss, token, ',')` loop of `parse_entity_line`. -/
def parse_args (cs : List Char) : List (List Char) :=
  ((split_on ',' cs).map trim).filter (fun t => !t.isEmpty)

/-- Entity structure: a command and its argument list. -/
structure Entity where
  command : List Char
  args : List (List Char)
deriving DecidableEq, Repr

/-- Parse a single entity line (`parse_entity_line`). -/
def parse_entity_line (line : List Char) : Entity :=
  match find_marker line with
  | some (cmd, rest) => { command := cmd, args := parse_args (strip_wrap rest) }
  | none => { command := line, args := [] }

/-- The line "#start". -/
def startMarker : List Char := "#start".data

/-- The line "#end". -/
def endMarker : List Char := "#end".data

/-- Body of the `for` loop of `parse_entities_structured`, parameterised by
the `inside_program` flag. -/
def entities_go (inside : Bool) : List (List Char) → List Entity
  | [] => []
  | l :: rest =>
    if l = startMarker then entities_go true rest
    else if l = endMarker then entities_go false rest
    else if inside ∧ l ≠ [] then parse_entity_line l :: entities_go inside rest
    else entities_go inside rest

/-- Parse all entities between the markers (`parse_entities_structured`);
the flag starts false. -/
def parse_entities_structured (lines : List (List Char)) : List Entity :=
  entities_go false lines

/-- The text "#import " (with the trailing space). -/
def importMarker : List Char := "#import ".data

/-- The test `line.starts_with(pat)`. -/
def starts_with : List Char → List Char → Bool
  | [], _ => true
  | _ :: _, [] => false
  | p :: ps, c :: cs => p = c && starts_with ps cs

/-- Loop of `parse_imports`, carrying the import list accumulated so far:
for each line starting with "#import ", take `line.substr(8)` and append
it unless already present. -/
def imports_go (acc : List (List Char)) : List (List Char) → List (List Char)
  | [] => acc
  | l :: rest =>
    if starts_with importMarker l then
      if l.drop 8 ∈ acc then imports_go acc rest
      else imports_go (acc ++ [l.drop 8]) rest
    else imports_go acc rest

/-- Collect the deduplicated import list (`parse_imports`). -/
def parse_imports (lines : List (List Char)) : List (List Char) :=
  imports_go [] lines

/-- Loop of `parse_references`: `acc` is the current `start_line` (or
`end_line`) value, `i` the 0-based loop index; a matching line overwrites
`acc` with `i + 1`. -/
def scan_marker (m : List Char) : Int → Nat → List (List Char) → Int
  | acc, _, [] => acc
  | acc, i, l :: rest =>
    scan_marker m (if l = m then ((i : Int) + 1) else acc) (i + 1) rest

/-- The value `parse_references` computes for marker `m`: the 1-based index
of its last occurrence, starting from the sentinel -1. -/
def last_marker (m : List Char) (lines : List (List Char)) : Int :=
  scan_marker m (-1) 0 lines

/-- Render `std::format("start:{};", v)` and friends. -/
def fmt_ref (key : List Char) (v : Int) : List Char :=
  key ++ (toString v).data ++ ";".data

/-- Build the six reference strings (`parse_references`). -/
def parse_references (lines : List (List Char)) : List (List Char) :=
  [fmt_ref "start:".data (last_marker startMarker lines),
   fmt_ref "end:".data (last_marker endMarker lines),
   fmt_ref "endcode:".data (last_marker endMarker lines),
   "bootstrapver:b26;".data,
   "bootstraprqcomp:b26c;".data,
   "bootstrapast:b26bast;".data]

/-- The BAST aggregate. -/
structure BAST where
  Imports : List (List Char)
  Entities : List Entity
  References : List (List Char)
  Details : List (List Char)
  Raw : List (List Char)
deriving DecidableEq, Repr

/-- The three `Details` strings of `Compiler::compile`. -/
def mk_details (fileloc : List Char) (start_time : Int) (n : Nat) : List (List Char) :=
  ["projectname=".data ++ fileloc,
   "compile-start:".data ++ (toString start_time).data,
   "num-entities:".data ++ (toString n).data]

/-- The pure parsing part of `Compiler::compile`: build the BAST from the
file content, the input path and the start timestamp. -/
def compile_bast (fileloc : List Char) (start_time : Int) (content : List Char) : BAST :=
  let filelines := split_lines content
  let ents := parse_entities_structured filelines
  { Imports := parse_imports filelines,
    Entities := ents,
    References := parse_references filelines,
    Details := mk_details fileloc start_time ents.length,
    Raw := filelines }

/-- The `", "`-joining loop of the entity serializer
(`if (i + 1 < ent.args.size()) debugFile << ", ";`). -/
def join_args : List (List Char) → List Char
  | [] => []
  | [a] => a
  | a :: b :: rest => a ++ ", ".data ++ join_args (b :: rest)

/-- One line of the `;;entities` section: the command, then
`" ?? (" ++ joined args ++ ")"` only when args is non-empty, then `;`. -/
def serialize_entity (e : Entity) : List Char :=
  e.command ++
    (if e.args.isEmpty then [] else " ?? (".data ++ join_args e.args ++ ")".data) ++
    ";".data

/-- Write each item followed by a newline. -/
def unlines (ls : List (List Char)) : List Char :=
  ls.foldr (fun l acc => l ++ '\n' :: acc) []

/-- The full `.btspdebug` artifact written by `Compiler::compile`. -/
def serialize_bast (b : BAST) : List Char :=
  ";;details\n".data ++ unlines b.Details ++
  ";;raw\n".data ++ unlines b.Raw ++
  ";;imports\n".data ++ unlines b.Imports ++
  ";;entities\n".data ++ unlines (b.Entities.map serialize_entity) ++
  ";;references\n".data ++ unlines b.References

/-- Observable outcome of one `Compiler::compile` call: the exit code, the
text printed on standard output, and the written artifact (name, content)
if any. -/
structure CompileOutcome where
  exitCode : Nat
  stdout : List Char
  artifact : Option (List Char × List Char)
deriving DecidableEq, Repr

/-- `Compiler::compile` with the file system abstracted: `content?` is the
input file content, or `none` when the file cannot be opened. -/
def compile (fileloc o : List Char) (start_time : Int)
    (content? : Option (List Char)) : CompileOutcome :=
  match content? with
  | none =>
    { exitCode := 1,
      stdout := "b26c=1\nfile-opened: 0\n".data,
      artifact := none }
  | some content =>
    { exitCode := 0,
      stdout := [],
      artifact := some (o ++ ".btspdebug".data,
                        serialize_bast (compile_bast fileloc start_time content)) }

/-- One step of the `inside_program` flag: set by "#start", cleared by
"#end", otherwise unchanged. -/
def flag_step (inside : Bool) (l : List Char) : Bool :=
  if l = startMarker then true
  else if l = endMarker then false
  else inside

/-- The flag value after scanning a list of lines. -/
def flag_after (inside : Bool) (lines : List (List Char)) : Bool :=
  lines.foldl flag_step inside

/-- Each line paired with the flag value in effect when it is scanned. -/
def annotate (inside : Bool) : List (List Char) → List (List Char × Bool)
  | [] => []
  | l :: rest => (l, inside) :: annotate (flag_step inside l) rest

/-- A line qualifies as an entity line: flag set, not a marker, non-empty. -/
def keepLine (p : List Char × Bool) : Bool :=
  p.2 && decide (p.1 ≠ startMarker) && decide (p.1 ≠ endMarker) && decide (p.1 ≠ [])

/-- Running balance of parentheses in a prefix. -/
def paren_balance (cs : List Char) : Int :=
  cs.foldl (fun b c => if c = '(' then b + 1 else if c = ')' then b - 1 else b) 0

/-- Modelled from the spec: a payload "wrapped in a single pair of
parentheses spanning its full length" — it begins with `(`, ends with `)`,
and the opening parenthesis is closed only at the very last character
(every proper non-empty prefix has positive balance). -/
def spec_wrapped (cs : List Char) : Bool :=
  cs.head? = some '(' && cs.getLast? = some ')' && decide (2 ≤ cs.length) &&
    (List.range (cs.length - 1)).all (fun k => decide (0 < paren_balance (cs.take (k + 1))))

/-! ## Lemmas about `split_on` -/

lemma split_on_cons_ne_nil (d c : Char) (cs : List Char) :
    split_on d (c :: cs) ≠ [] := by
  simp only [split_on]
  split
  · simp
  · split <;> simp

lemma mem_split_on_not_delim (d : Char) :
    ∀ (cs t : List Char), t ∈ split_on d cs → d ∉ t := by
  intro cs
  induction cs with
  | nil => intro t ht; simp [split_on] at ht
  | cons c cs ih =>
    intro t ht
    simp only [split_on] at ht
    by_cases hc : c = d
    · rw [if_pos hc] at ht
      rcases List.mem_cons.mp ht with h | h
      · subst h; simp
      · exact ih t h
    · rw [if_neg hc] at ht
      cases hsp : split_on d cs with
      | nil =>
        rw [hsp] at ht
        simp only [List.mem_singleton] at ht
        subst ht
        intro hmem
        rw [List.mem_singleton] at hmem
        exact hc hmem.symm
      | cons l ls =>
        rw [hsp] at ht
        rcases List.mem_cons.mp ht with h | h
        · subst h
          intro hmem
          rcases List.mem_cons.mp hmem with h1 | h1
          · exact hc h1.symm
          · exact ih l (by rw [hsp]; exact List.mem_cons_self l ls) h1
        · exact ih t (by rw [hsp]; exact List.mem_cons_of_mem l h)

lemma split_on_append_delim (d : Char) :
    ∀ (cs : List Char), cs ≠ [] → cs.getLast? ≠ some d →
      split_on d (cs ++ [d]) = split_on d cs := by
  intro cs
  induction cs with
  | nil => intro h1 _; exact absurd rfl h1
  | cons c cs ih =>
    intro _ h2
    rcases eq_or_ne cs [] with hcs | hcs
    · subst hcs
      by_cases hc : c = d
      · exact absurd (by simp [hc]) h2
      · simp [split_on, hc]
    · obtain ⟨x, xs, hx⟩ := List.exists_cons_of_ne_nil hcs
      have h2' : cs.getLast? ≠ some d := by
        rw [hx] at h2 ⊢
        rwa [List.getLast?_cons_cons] at h2
      have hrec := ih hcs h2'
      by_cases hc : c = d
      · simp only [List.cons_append, split_on, if_pos hc, List.append_eq]
        rw [hrec]
      · simp only [List.cons_append, split_on, if_neg hc, List.append_eq]
        rw [hrec]

/-! ## Lemmas about `trim` -/

lemma mem_trimRight : ∀ (l : List Char) (x : Char), x ∈ trimRight l → x ∈ l := by
  intro l
  induction l with
  | nil => intro x hx; simp [trimRight] at hx
  | cons c cs ih =>
    intro x hx
    simp only [trimRight] at hx
    cases htr : trimRight cs with
    | nil =>
      rw [htr] at hx
      by_cases hws : isWS c
      · simp [hws] at hx
      · simp [hws] at hx
        subst hx
        exact List.mem_cons_self _ _
    | cons y ys =>
      rw [htr] at hx
      rcases List.mem_cons.mp hx with h | h
      · exact h ▸ List.mem_cons_self c cs
      · exact List.mem_cons_of_mem c (ih x (htr ▸ h))

lemma trimRight_getLast_not_ws :
    ∀ (l : List Char) (c : Char), (trimRight l).getLast? = some c → isWS c = false := by
  intro l
  induction l with
  | nil => intro c hc; simp [trimRight] at hc
  | cons c0 cs ih =>
    intro c hc
    simp only [trimRight] at hc
    cases htr : trimRight cs with
    | nil =>
      rw [htr] at hc
      by_cases hws : isWS c0
      · simp [hws] at hc
      · simp [hws] at hc
        subst hc
        simpa using hws
    | cons y ys =>
      rw [htr] at hc
      rw [List.getLast?_cons_cons] at hc
      exact ih c (htr ▸ hc)

lemma trimRight_head_or_nil :
    ∀ (l : List Char), trimRight l = [] ∨ (trimRight l).head? = l.head? := by
  intro l
  cases l with
  | nil => exact Or.inl rfl
  | cons c cs =>
    simp only [trimRight]
    cases htr : trimRight cs with
    | nil =>
      by_cases hws : isWS c
      · exact Or.inl (by simp [hws])
      · exact Or.inr (by simp [hws])
    | cons y ys => exact Or.inr (by simp)

lemma mem_dropWhile_ws : ∀ (l : List Char) (x : Char), x ∈ l.dropWhile isWS → x ∈ l := by
  intro l
  induction l with
  | nil => intro x hx; simp at hx
  | cons c cs ih =>
    intro x hx
    rw [List.dropWhile_cons] at hx
    by_cases hws : isWS c
    · simp only [hws, if_true] at hx
      exact List.mem_cons_of_mem c (ih x hx)
    · simp only [hws, if_false] at hx
      exact hx

lemma head_dropWhile_not_ws :
    ∀ (l : List Char) (c : Char), (l.dropWhile isWS).head? = some c → isWS c = false := by
  intro l
  induction l with
  | nil => intro c hc; simp at hc
  | cons c0 cs ih =>
    intro c hc
    rw [List.dropWhile_cons] at hc
    by_cases hws : isWS c0
    · simp only [hws, if_true] at hc
      exact ih c hc
    · simp [hws] at hc
      subst hc
      simpa using hws

lemma mem_trim (l : List Char) (x : Char) (hx : x ∈ trim l) : x ∈ l :=
  mem_dropWhile_ws l x (mem_trimRight _ x hx)

lemma trim_head_not_ws (l : List Char) (c : Char)
    (hc : (trim l).head? = some c) : isWS c = false := by
  rcases trimRight_head_or_nil (l.dropWhile isWS) with h | h
  · rw [trim, h] at hc; simp at hc
  · rw [trim, h] at hc
    exact head_dropWhile_not_ws l c hc

lemma trim_getLast_not_ws (l : List Char) (c : Char)
    (hc : (trim l).getLast? = some c) : isWS c = false :=
  trimRight_getLast_not_ws _ c hc

/-! ## Lemmas about `last_marker` -/

lemma scan_marker_spec (m : List Char) :
    ∀ (lines : List (List Char)) (acc : Int) (i : Nat),
      (scan_marker m acc i lines = acc ∧
        ∀ (j : Nat) (hj : j < lines.length), lines.get ⟨j, hj⟩ ≠ m) ∨
      (∃ (j : Nat) (hj : j < lines.length), lines.get ⟨j, hj⟩ = m ∧
        scan_marker m acc i lines = (i : Int) + (j : Int) + 1 ∧
        ∀ (k : Nat) (hk : k < lines.length), j < k → lines.get ⟨k, hk⟩ ≠ m) := by
  intro lines
  induction lines with
  | nil =>
    intro acc i
    left
    refine ⟨rfl, ?_⟩
    intro j hj
    simp at hj
  | cons l rest ih =>
    intro acc i
    rcases ih (if l = m then ((i : Int) + 1) else acc) (i + 1) with
      ⟨heq, hnone⟩ | ⟨j, hj, hm, hscan, hmax⟩
    · by_cases hl : l = m
      · right
        refine ⟨0, by simp, by simpa using hl, ?_, ?_⟩
        · simp only [scan_marker]
          rw [heq, if_pos hl]
          push_cast
          ring
        · intro k hk hk0
          cases k with
          | zero => omega
          | succ k0 =>
            have hk0' : k0 < rest.length := by simpa using hk
            have hsh : (l :: rest).get ⟨k0 + 1, hk⟩ = rest.get ⟨k0, hk0'⟩ := rfl
            rw [hsh]
            exact hnone k0 hk0'
      · left
        constructor
        · simp only [scan_marker]
          rw [heq, if_neg hl]
        · intro j hj
          cases j with
          | zero => simpa using hl
          | succ j0 =>
            have hj0 : j0 < rest.length := by simpa using hj
            have hsh : (l :: rest).get ⟨j0 + 1, hj⟩ = rest.get ⟨j0, hj0⟩ := rfl
            rw [hsh]
            exact hnone j0 hj0
    · right
      refine ⟨j + 1, by simpa using Nat.succ_lt_succ hj, ?_, ?_, ?_⟩
      · show rest.get ⟨j, hj⟩ = m
        exact hm
      · simp only [scan_marker]
        rw [hscan]
        push_cast
        ring
      · intro k hk hjk
        cases k with
        | zero => omega
        | succ k0 =>
          have hk0 : k0 < rest.length := by simpa using hk
          have hsh : (l :: rest).get ⟨k0 + 1, hk⟩ = rest.get ⟨k0, hk0⟩ := rfl
          rw [hsh]
          exact hmax k0 hk0 (by omega)

lemma last_marker_of_last_occ (m : List Char) (lines : List (List Char)) (i : Nat)
    (hi : i < lines.length) (hm : lines.get ⟨i, hi⟩ = m)
    (hlast : ∀ (j : Nat) (hj : j < lines.length), i < j → lines.get ⟨j, hj⟩ ≠ m) :
    last_marker m lines = (i : Int) + 1 := by
  rcases scan_marker_spec m lines (-1) 0 with ⟨_, hnone⟩ | ⟨j, hj, hjm, hscan, hmax⟩
  · exact absurd hm (hnone i hi)
  · have hij : i = j := by
      rcases lt_trichotomy i j with h | h | h
      · exact absurd hjm (hlast j hj h)
      · exact h
      · exact absurd hm (hmax i hi h)
    subst hij
    rw [last_marker, hscan]
    ring

lemma last_marker_not_mem (m : List Char) (lines : List (List Char)) (h : m ∉ lines) :
    last_marker m lines = -1 := by
  rcases scan_marker_spec m lines (-1) 0 with ⟨heq, _⟩ | ⟨j, hj, hjm, _, _⟩
  · rw [last_marker, heq]
  · exact absurd (hjm ▸ List.get_mem lines j hj) h

/-! ## Lemmas about `entities_go` and the inside-program flag -/

lemma flag_after_nil (inside : Bool) : flag_after inside [] = inside := rfl

lemma flag_after_cons (inside : Bool) (l : List Char) (xs : List (List Char)) :
    flag_after inside (l :: xs) = flag_after (flag_step inside l) xs := rfl

lemma entities_go_cons (inside : Bool) (l : List Char) (rest : List (List Char)) :
    entities_go inside (l :: rest) =
      (if inside = true ∧ l ≠ startMarker ∧ l ≠ endMarker ∧ l ≠ []
        then [parse_entity_line l] else []) ++
        entities_go (flag_step inside l) rest := by
  simp only [entities_go, flag_step]
  by_cases hs : l = startMarker
  · rw [if_pos hs, if_pos hs]
    have hc : ¬(inside = true ∧ l ≠ startMarker ∧ l ≠ endMarker ∧ l ≠ []) := by
      rintro ⟨_, h, _, _⟩; exact h hs
    rw [if_neg hc, List.nil_append]
  · rw [if_neg hs, if_neg hs]
    by_cases he : l = endMarker
    · rw [if_pos he, if_pos he]
      have hc : ¬(inside = true ∧ l ≠ startMarker ∧ l ≠ endMarker ∧ l ≠ []) := by
        rintro ⟨_, _, h, _⟩; exact h he
      rw [if_neg hc, List.nil_append]
    · rw [if_neg he, if_neg he]
      by_cases hin : inside = true ∧ l ≠ []
      · have hc : inside = true ∧ l ≠ startMarker ∧ l ≠ endMarker ∧ l ≠ [] :=
          ⟨hin.1, hs, he, hin.2⟩
        rw [if_pos hin, if_pos hc, List.singleton_append]
      · have hc : ¬(inside = true ∧ l ≠ startMarker ∧ l ≠ endMarker ∧ l ≠ []) := by
          rintro ⟨h1, _, _, h4⟩; exact hin ⟨h1, h4⟩
        rw [if_neg hin, if_neg hc, List.nil_append]

lemma entities_go_append :
    ∀ (xs ys : List (List Char)) (inside : Bool),
      entities_go inside (xs ++ ys) =
        entities_go inside xs ++ entities_go (flag_after inside xs) ys := by
  intro xs
  induction xs with
  | nil => intro ys inside; simp [entities_go, flag_after]
  | cons l xs ih =>
    intro ys inside
    rw [List.cons_append, entities_go_cons, entities_go_cons, flag_after_cons,
      ih ys (flag_step inside l), List.append_assoc]

lemma bang_isEmpty_of_ne_nil {l : List Char} (h : l ≠ []) : (!l.isEmpty) = true := by
  cases l with
  | nil => exact absurd rfl h
  | cons x xs => rfl

lemma entities_go_true_no_markers :
    ∀ (suf : List (List Char)), startMarker ∉ suf → endMarker ∉ suf →
      entities_go true suf = (suf.filter (fun l => !l.isEmpty)).map parse_entity_line := by
  intro suf
  induction suf with
  | nil => intro _ _; rfl
  | cons l rest ih =>
    intro hs he
    have hls : l ≠ startMarker := fun h => hs (h ▸ List.mem_cons_self _ _)
    have hle : l ≠ endMarker := fun h => he (h ▸ List.mem_cons_self _ _)
    have hs' : startMarker ∉ rest := fun h => hs (List.mem_cons_of_mem _ h)
    have he' : endMarker ∉ rest := fun h => he (List.mem_cons_of_mem _ h)
    have hstep : flag_step true l = true := by simp [flag_step, hls, hle]
    rw [entities_go_cons, hstep, ih hs' he', List.filter_cons]
    by_cases hl : l = []
    · subst hl
      have hc : ¬((true : Bool) = true ∧ ([] : List Char) ≠ startMarker ∧
          ([] : List Char) ≠ endMarker ∧ ([] : List Char) ≠ []) := by
        rintro ⟨_, _, _, h⟩; exact h rfl
      rw [if_neg hc, List.nil_append]
      simp
    · have hc : (true : Bool) = true ∧ l ≠ startMarker ∧ l ≠ endMarker ∧ l ≠ [] :=
        ⟨rfl, hls, hle, hl⟩
      rw [if_pos hc, bang_isEmpty_of_ne_nil hl]
      simp

lemma keepLine_iff (l : List Char) (b : Bool) :
    keepLine (l, b) = true ↔ (b = true ∧ l ≠ startMarker ∧ l ≠ endMarker ∧ l ≠ []) := by
  simp [keepLine, and_assoc]

lemma entities_go_eq_filter :
    ∀ (lines : List (List Char)) (inside : Bool),
      entities_go inside lines =
        ((annotate inside lines).filter keepLine).map (fun p => parse_entity_line p.1) := by
  intro lines
  induction lines with
  | nil => intro inside; rfl
  | cons l rest ih =>
    intro inside
    rw [entities_go_cons, ih (flag_step inside l)]
    show _ = ((List.filter keepLine ((l, inside) :: annotate (flag_step inside l) rest)).map
      (fun p => parse_entity_line p.1))
    rw [List.filter_cons]
    by_cases hc : inside = true ∧ l ≠ startMarker ∧ l ≠ endMarker ∧ l ≠ []
    · rw [if_pos hc, if_pos ((keepLine_iff l inside).mpr hc), List.map_cons,
        List.singleton_append]
    · rw [if_neg hc, if_neg (fun h => hc ((keepLine_iff l inside).mp h)), List.nil_append]

/-! ## Lemmas about `parse_imports` -/

lemma mem_imports_go_of_mem_acc :
    ∀ (lines acc : List (List Char)) (x : List Char),
      x ∈ acc → x ∈ imports_go acc lines := by
  intro lines
  induction lines with
  | nil => intro acc x hx; exact hx
  | cons l rest ih =>
    intro acc x hx
    simp only [imports_go]
    by_cases hp : starts_with importMarker l = true
    · rw [if_pos hp]
      by_cases hmem : l.drop 8 ∈ acc
      · rw [if_pos hmem]; exact ih acc x hx
      · rw [if_neg hmem]; exact ih _ x (List.mem_append_left _ hx)
    · rw [if_neg hp]; exact ih acc x hx

lemma mem_imports_go :
    ∀ (lines acc : List (List Char)) (l : List Char),
      l ∈ lines → starts_with importMarker l = true →
        l.drop 8 ∈ imports_go acc lines := by
  intro lines
  induction lines with
  | nil => intro acc l hl; intro _; simp at hl
  | cons l0 rest ih =>
    intro acc l hl hp
    simp only [imports_go]
    rcases List.mem_cons.mp hl with h | h
    · subst h
      rw [if_pos hp]
      by_cases hmem : l.drop 8 ∈ acc
      · rw [if_pos hmem]
        exact mem_imports_go_of_mem_acc rest acc _ hmem
      · rw [if_neg hmem]
        exact mem_imports_go_of_mem_acc rest _ _
          (List.mem_append_right _ (List.mem_singleton.mpr rfl))
    · by_cases hp0 : starts_with importMarker l0 = true
      · rw [if_pos hp0]
        by_cases hmem : l0.drop 8 ∈ acc
        · rw [if_pos hmem]; exact ih acc l h hp
        · rw [if_neg hmem]; exact ih _ l h hp
      · rw [if_neg hp0]; exact ih acc l h hp

lemma starts_with_append (p : List Char) :
    ∀ (rest : List Char), starts_with p (p ++ rest) = true := by
  intro rest
  induction p with
  | nil => rfl
  | cons c cs ih => simp [starts_with, ih]

/-! ## Lemmas about `join_args` and the serializer -/

lemma join_args_eq_intercalate :
    ∀ (args : List (List Char)), join_args args = List.intercalate ", ".data args := by
  intro args
  induction args with
  | nil => simp [join_args, List.intercalate, List.intersperse]
  | cons a rest ih =>
    cases rest with
    | nil => simp [join_args, List.intercalate, List.intersperse]
    | cons b r =>
      simp only [join_args]
      rw [ih]
      simp [List.intercalate, List.intersperse, List.append_assoc]

/-! ## Lemmas about `parse_entity_line` -/

lemma parse_entity_line_no_marker (line : List Char) (h : find_marker line = none) :
    parse_entity_line line = { command := line, args := [] } := by
  simp [parse_entity_line, h]

lemma parse_entity_line_marker (line cmd rest : List Char)
    (h : find_marker line = some (cmd, rest)) :
    parse_entity_line line = { command := cmd, args := parse_args (strip_wrap rest) } := by
  simp [parse_entity_line, h]

lemma strip_wrap_wrapped (mid : List Char) :
    strip_wrap ('(' :: (mid ++ [')'])) = mid := by
  have h1 : ('(' :: (mid ++ [')'])).head? = some '(' := rfl
  have h2 : ('(' :: (mid ++ [')'])).getLast? = some ')' := by
    rw [show ('(' :: (mid ++ [')'])) = ('(' :: mid) ++ [')'] by simp]
    exact List.getLast?_concat _
  rw [strip_wrap, if_pos ⟨by simp, h1, h2⟩]
  simp only [List.drop_one, List.tail_cons]
  exact List.dropLast_concat

lemma strip_wrap_not_wrapped (rest : List Char)
    (h : ¬ ∃ mid, rest = '(' :: (mid ++ [')'])) :
    strip_wrap rest = rest := by
  rw [strip_wrap, if_neg]
  rintro ⟨hne, hhead, hlast⟩
  apply h
  cases rest with
  | nil => exact absurd rfl hne
  | cons c cs =>
    simp only [List.head?_cons, Option.some.injEq] at hhead
    subst hhead
    rcases eq_or_ne cs [] with h0 | h0
    · subst h0
      simp at hlast
    · have hlast' : cs.getLast? = some ')' := by
        obtain ⟨x, xs, rfl⟩ := List.exists_cons_of_ne_nil h0
        rwa [List.getLast?_cons_cons] at hlast
      have hdec : cs.dropLast ++ [')'] = cs := by
        have h1 := List.dropLast_append_getLast h0
        have h2 : cs.getLast h0 = ')' := by
          have h3 := List.getLast?_eq_getLast cs h0
          rw [h3] at hlast'
          exact Option.some.inj hlast'
        rw [h2] at h1
        exact h1
      exact ⟨cs.dropLast, by rw [hdec]⟩

lemma mem_parse_args (cs a : List Char) (ha : a ∈ parse_args cs) :
    a ≠ [] ∧ (∀ c, a.head? = some c → isWS c = false) ∧
      (∀ c, a.getLast? = some c → isWS c = false) ∧ ',' ∉ a := by
  simp only [parse_args, List.mem_filter, List.mem_map] at ha
  obtain ⟨⟨t, ht, rfl⟩, hne⟩ := ha
  refine ⟨?_, ?_, ?_, ?_⟩
  · intro h
    rw [h] at hne
    simp at hne
  · intro c hc
    exact trim_head_not_ws t c hc
  · intro c hc
    exact trim_getLast_not_ws t c hc
  · intro hmem
    exact mem_split_on_not_delim ',' cs t ht (mem_trim t ',' hmem)

lemma mem_entity_args (line a : List Char) (ha : a ∈ (parse_entity_line line).args) :
    a ≠ [] ∧ (∀ c, a.head? = some c → isWS c = false) ∧
      (∀ c, a.getLast? = some c → isWS c = false) ∧ ',' ∉ a := by
  cases hfm : find_marker line with
  | none =>
    rw [parse_entity_line_no_marker line hfm] at ha
    simp at ha
  | some p =>
    obtain ⟨cmd, rest⟩ := p
    rw [parse_entity_line_marker line cmd rest hfm] at ha
    exact mem_parse_args _ a ha

/-! ## Claim theorems -/

/-- Claim C1, counterexample: for the input text with the three lines
"#start", "foo", "#end", the references contain "start:1;" (the marker is
the first line, and the loop stores its 1-based index), not "start:2;" as
the claim states. -/
theorem scenario_one_counterexample :
    "start:2;".data ∉ (compile_bast "in.btsp".data 0 "#start\nfoo\n#end".data).References ∧
    "start:1;".data ∈ (compile_bast "in.btsp".data 0 "#start\nfoo\n#end".data).References := by
  constructor
  · decide
  · decide

/-- Claim C1, amended: for the input text consisting of the three lines
"#start", "foo", "#end", compiling yields exactly one entity whose command
is "foo" and whose args list is empty, and the references contain the
entries "start:1;", "end:3;", and "endcode:3;". -/
theorem scenario_one_amended (fileloc : List Char) (start_time : Int) :
    (compile_bast fileloc start_time "#start\nfoo\n#end".data).Entities =
      [{ command := "foo".data, args := [] }] ∧
    "start:1;".data ∈ (compile_bast fileloc start_time "#start\nfoo\n#end".data).References ∧
    "end:3;".data ∈ (compile_bast fileloc start_time "#start\nfoo\n#end".data).References ∧
    "endcode:3;".data ∈
      (compile_bast fileloc start_time "#start\nfoo\n#end".data).References := by
  have hE : (compile_bast fileloc start_time "#start\nfoo\n#end".data).Entities =
      parse_entities_structured (split_lines "#start\nfoo\n#end".data) := rfl
  have hR : (compile_bast fileloc start_time "#start\nfoo\n#end".data).References =
      parse_references (split_lines "#start\nfoo\n#end".data) := rfl
  rw [hE, hR]
  refine ⟨by decide, by decide, by decide, by decide⟩

/-- Claim C2: the reference builder records the 1-based index of the last
line equal to the marker: if position i holds the marker and no later
position does, the computed value is i+1; in particular with "#start" at
1-based positions 2 and 5 the start value is 5 and the reference string is
"start:5;". -/
theorem last_marker_is_last_occurrence :
    (∀ (m : List Char) (lines : List (List Char)) (i : Nat) (hi : i < lines.length),
      lines.get ⟨i, hi⟩ = m →
      (∀ (j : Nat) (hj : j < lines.length), i < j → lines.get ⟨j, hj⟩ ≠ m) →
      last_marker m lines = (i : Int) + 1) ∧
    last_marker startMarker
      ["a".data, startMarker, "b".data, "c".data, startMarker, "d".data] = 5 ∧
    "start:5;".data ∈ parse_references
      ["a".data, startMarker, "b".data, "c".data, startMarker, "d".data] := by
  refine ⟨?_, by decide, by decide⟩
  intro m lines i hi hm hlast
  exact last_marker_of_last_occ m lines i hi hm hlast

/-- Witness for C2: in the list whose only "#start" is at 0-based position
0, the computed value is 1. -/
theorem last_marker_is_last_occurrence_witness :
    last_marker startMarker [startMarker, "x".data] = (0 : Int) + 1 :=
  last_marker_is_last_occurrence.1 startMarker [startMarker, "x".data] 0 (by decide)
    (by decide)
    (by
      intro j hj hij
      cases j with
      | zero => omega
      | succ j0 =>
        cases j0 with
        | zero => exact (by decide : "x".data ≠ startMarker)
        | succ j1 =>
          simp only [List.length_cons, List.length_nil] at hj
          omega)

/-- Claim C3: for every line sequence the reference builder produces
exactly six strings in the fixed order start, end, endcode and the three
fixed literals, with the endcode value duplicating the end value, and an
absent marker represented by the sentinel "-1" in the corresponding
line-number field. -/
theorem parse_references_shape (lines : List (List Char)) :
    parse_references lines =
      [fmt_ref "start:".data (last_marker startMarker lines),
       fmt_ref "end:".data (last_marker endMarker lines),
       fmt_ref "endcode:".data (last_marker endMarker lines),
       "bootstrapver:b26;".data,
       "bootstraprqcomp:b26c;".data,
       "bootstrapast:b26bast;".data] ∧
    (parse_references lines).length = 6 ∧
    (startMarker ∉ lines → (parse_references lines).get? 0 = some ("start:-1;".data)) ∧
    (endMarker ∉ lines →
      (parse_references lines).get? 1 = some ("end:-1;".data) ∧
      (parse_references lines).get? 2 = some ("endcode:-1;".data)) := by
  refine ⟨rfl, rfl, ?_, ?_⟩
  · intro h
    show some (fmt_ref "start:".data (last_marker startMarker lines)) = _
    rw [last_marker_not_mem _ _ h]
    rfl
  · intro h
    constructor
    · show some (fmt_ref "end:".data (last_marker endMarker lines)) = _
      rw [last_marker_not_mem _ _ h]
      rfl
    · show some (fmt_ref "endcode:".data (last_marker endMarker lines)) = _
      rw [last_marker_not_mem _ _ h]
      rfl

/-- Witness for C3: on a one-line sequence with no markers, the sentinel
entries appear and the list has six elements. -/
theorem parse_references_shape_witness :
    (parse_references ["x".data]).get? 0 = some ("start:-1;".data) ∧
    (parse_references ["x".data]).get? 1 = some ("end:-1;".data) ∧
    (parse_references ["x".data]).get? 2 = some ("endcode:-1;".data) ∧
    (parse_references ["x".data]).length = 6 :=
  ⟨(parse_references_shape ["x".data]).2.2.1 (by decide),
   ((parse_references_shape ["x".data]).2.2.2 (by decide)).1,
   ((parse_references_shape ["x".data]).2.2.2 (by decide)).2,
   (parse_references_shape ["x".data]).2.1⟩

/-- Claim C4, counterexample: the payload "(a),(b)" is not wrapped in a
single full-length pair of parentheses, yet the code strips its first and
last characters (the check only looks at the first and last character), so
the parsed args are "a)" and "(b" rather than the parenthesis-preserving
"(a)" and "(b)". -/
theorem paren_strip_counterexample :
    spec_wrapped "(a),(b)".data = false ∧
    parse_entity_line "x??(a),(b)".data =
      { command := "x".data, args := ["a)".data, "(b".data] } ∧
    (parse_entity_line "x??(a),(b)".data).args ≠ ["(a)".data, "(b)".data] := by
  refine ⟨by decide, by decide, by decide⟩

/-- Claim C4, amended: the payload after the marker has its first and last
characters stripped exactly when it is non-empty, begins with an opening
parenthesis and ends with a closing parenthesis — regardless of whether
those two characters form a matching pair; in particular "(a),(b)" is
stripped, giving args "a)" and "(b". -/
theorem paren_strip_amended :
    (∀ (line cmd mid : List Char),
      find_marker line = some (cmd, '(' :: (mid ++ [')'])) →
      (parse_entity_line line).args = parse_args mid) ∧
    (∀ (line cmd rest : List Char),
      find_marker line = some (cmd, rest) →
      (¬ ∃ mid, rest = '(' :: (mid ++ [')'])) →
      (parse_entity_line line).args = parse_args rest) ∧
    (parse_entity_line "x??(a),(b)".data).args = ["a)".data, "(b".data] := by
  refine ⟨?_, ?_, by decide⟩
  · intro line cmd mid h
    rw [parse_entity_line_marker line cmd _ h, strip_wrap_wrapped]
  · intro line cmd rest h hnw
    rw [parse_entity_line_marker line cmd rest h, strip_wrap_not_wrapped rest hnw]

/-- Witness for C4 (amended): a wrapped payload parses as its interior, an
unwrapped payload parses as itself. -/
theorem paren_strip_amended_witness :
    (parse_entity_line "a??(b,c)".data).args = parse_args "b,c".data ∧
    (parse_entity_line "a??b,c".data).args = parse_args "b,c".data :=
  ⟨paren_strip_amended.1 "a??(b,c)".data "a".data "b,c".data (by decide),
   paren_strip_amended.2.1 "a??b,c".data "a".data "b,c".data (by decide)
     (by
       rintro ⟨mid, hmid⟩
       have hmid2 : ('b' :: (',' :: ('c' :: ([] : List Char)))) =
           '(' :: (mid ++ [')']) := hmid
       injection hmid2 with h1 _
       exact absurd h1 (by decide))⟩

/-- Claim C5: every parsed argument token is non-empty, carries no leading
or trailing whitespace (space, tab, newline, carriage return) and contains
no comma; the examples "c??a,,b", "a??( x , y )" and a whitespace-only
payload parse as stated. -/
theorem args_trimmed_nonempty :
    (∀ (line a : List Char), a ∈ (parse_entity_line line).args →
      a ≠ [] ∧ (∀ c, a.head? = some c → isWS c = false) ∧
        (∀ c, a.getLast? = some c → isWS c = false) ∧ ',' ∉ a) ∧
    parse_entity_line "c??a,,b".data =
      { command := "c".data, args := ["a".data, "b".data] } ∧
    parse_entity_line "a??( x , y )".data =
      { command := "a".data, args := ["x".data, "y".data] } ∧
    parse_entity_line "c?? \t ".data = { command := "c".data, args := [] } := by
  refine ⟨mem_entity_args, by decide, by decide, by decide⟩

/-- Witness for C5: the token "x" of "a??( x , y )" is non-empty and
comma-free. -/
theorem args_trimmed_nonempty_witness :
    "x".data ≠ [] ∧ ',' ∉ "x".data :=
  ⟨(args_trimmed_nonempty.1 "a??( x , y )".data "x".data (by decide)).1,
   (args_trimmed_nonempty.1 "a??( x , y )".data "x".data (by decide)).2.2.2⟩

/-- Claim C6: the serializer writes, for each entity, the command, then —
only when the args list is non-empty — " ?? (" plus the args joined with
", " plus ")", and in every case a terminating ";"; the entity with command
"greet" and args "name", "Bob" serializes to "greet ?? (name, Bob);". -/
theorem serialize_entity_spec :
    (∀ e : Entity, e.args ≠ [] →
      serialize_entity e =
        e.command ++ " ?? (".data ++ List.intercalate ", ".data e.args ++
          ")".data ++ ";".data) ∧
    (∀ cmd : List Char,
      serialize_entity { command := cmd, args := [] } = cmd ++ ";".data) ∧
    serialize_entity { command := "greet".data, args := ["name".data, "Bob".data] } =
      "greet ?? (name, Bob);".data := by
  refine ⟨?_, ?_, by decide⟩
  · intro e he
    have hne : e.args.isEmpty = false := by
      cases h : e.args with
      | nil => exact absurd h he
      | cons a as => rfl
    rw [serialize_entity, hne]
    rw [join_args_eq_intercalate]
    simp [List.append_assoc]
  · intro cmd
    simp [serialize_entity]

/-- Witness for C6: a one-argument entity serializes with the wrapper. -/
theorem serialize_entity_spec_witness :
    serialize_entity { command := "a".data, args := ["b".data] } =
      "a".data ++ " ?? (".data ++ List.intercalate ", ".data ["b".data] ++
        ")".data ++ ";".data :=
  serialize_entity_spec.1 { command := "a".data, args := ["b".data] } (by decide)

/-- Claim C7: a line becomes an entity if and only if the inside-program
flag is set when it is scanned, it is not "#start" or "#end", and it is
non-empty — the entity list is exactly the flag-annotated line list
filtered by that condition and parsed; moreover a "#start" with no later
marker captures every subsequent non-empty line. -/
theorem entities_iff_flagged :
    (∀ (lines : List (List Char)),
      parse_entities_structured lines =
        ((annotate false lines).filter keepLine).map (fun p => parse_entity_line p.1)) ∧
    (∀ (l : List Char) (b : Bool),
      keepLine (l, b) = true ↔
        (b = true ∧ l ≠ startMarker ∧ l ≠ endMarker ∧ l ≠ [])) ∧
    (∀ (pre suf : List (List Char)), startMarker ∉ suf → endMarker ∉ suf →
      parse_entities_structured (pre ++ startMarker :: suf) =
        parse_entities_structured (pre ++ [startMarker]) ++
          (suf.filter (fun l => !l.isEmpty)).map parse_entity_line) := by
  refine ⟨?_, keepLine_iff, ?_⟩
  · intro lines
    exact entities_go_eq_filter lines false
  · intro pre suf hs he
    have h1 : pre ++ startMarker :: suf = (pre ++ [startMarker]) ++ suf := by simp
    have hflag : flag_after false (pre ++ [startMarker]) = true := by
      rw [flag_after, List.foldl_append]
      simp [flag_step]
    rw [h1]
    show entities_go false ((pre ++ [startMarker]) ++ suf) = _
    rw [entities_go_append, hflag, entities_go_true_no_markers suf hs he]
    rfl

/-- Witness for C7: with no markers after the "#start", the single
non-empty following line becomes an entity. -/
theorem entities_iff_flagged_witness :
    parse_entities_structured ([] ++ startMarker :: ["a".data]) =
      parse_entities_structured ([] ++ [startMarker]) ++
        ((["a".data]).filter (fun l => !l.isEmpty)).map parse_entity_line :=
  entities_iff_flagged.2.2 [] ["a".data] (by decide) (by decide)

/-- Claim C8: when the input file cannot be opened, compile prints
"b26c=1" then "file-opened: 0", exits with code 1, and writes no
artifact. -/
theorem compile_open_failure (fileloc o : List Char) (start_time : Int) :
    (compile fileloc o start_time none).exitCode = 1 ∧
    (compile fileloc o start_time none).stdout = "b26c=1\nfile-opened: 0\n".data ∧
    (compile fileloc o start_time none).artifact = none :=
  ⟨rfl, rfl, rfl⟩

/-- Claim C9: a line "#import X" (with no "??" marker) occurring while the
inside-program flag is true is collected both as the import identifier "X"
and as an entity whose command is the full line with empty args. -/
theorem import_line_dual_collection (pre suf : List (List Char)) (name : List Char)
    (hnm : find_marker (importMarker ++ name) = none)
    (hflag : flag_after false pre = true) :
    name ∈ parse_imports (pre ++ (importMarker ++ name) :: suf) ∧
    { command := importMarker ++ name, args := ([] : List (List Char)) } ∈
      parse_entities_structured (pre ++ (importMarker ++ name) :: suf) := by
  have h8 : importMarker.length = 8 := by decide
  have h6 : startMarker.length = 6 := by decide
  have h4 : endMarker.length = 4 := by decide
  constructor
  · have hmem : (importMarker ++ name) ∈ pre ++ (importMarker ++ name) :: suf :=
      List.mem_append_right _ (List.mem_cons_self _ _)
    have hsw : starts_with importMarker (importMarker ++ name) = true :=
      starts_with_append _ _
    have h1 := mem_imports_go (pre ++ (importMarker ++ name) :: suf) [] _ hmem hsw
    have hdrop : (importMarker ++ name).drop 8 = name := by
      rw [← h8, List.drop_left]
    rw [hdrop] at h1
    exact h1
  · have hne_s : importMarker ++ name ≠ startMarker := by
      intro h
      have hlen := congrArg List.length h
      rw [List.length_append, h8, h6] at hlen
      omega
    have hne_e : importMarker ++ name ≠ endMarker := by
      intro h
      have hlen := congrArg List.length h
      rw [List.length_append, h8, h4] at hlen
      omega
    have hne_nil : importMarker ++ name ≠ [] := by
      intro h
      have hlen := congrArg List.length h
      rw [List.length_append, h8] at hlen
      simp at hlen
    have hdecomp : parse_entities_structured (pre ++ (importMarker ++ name) :: suf) =
        entities_go false pre ++ entities_go true ((importMarker ++ name) :: suf) := by
      show entities_go false (pre ++ (importMarker ++ name) :: suf) = _
      rw [entities_go_append, hflag]
    rw [hdecomp]
    apply List.mem_append_right
    rw [entities_go_cons]
    have hcond : (true : Bool) = true ∧ (importMarker ++ name) ≠ startMarker ∧
        (importMarker ++ name) ≠ endMarker ∧ (importMarker ++ name) ≠ [] :=
      ⟨rfl, hne_s, hne_e, hne_nil⟩
    rw [if_pos hcond, parse_entity_line_no_marker _ hnm]
    exact List.mem_append_left _ (List.mem_singleton.mpr rfl)

/-- Witness for C9: the line "#import X" directly after "#start" yields
the import "X" and the entity with the full line as command. -/
theorem import_line_dual_collection_witness :
    "X".data ∈ parse_imports ([startMarker] ++ (importMarker ++ "X".data) :: []) ∧
    { command := importMarker ++ "X".data, args := ([] : List (List Char)) } ∈
      parse_entities_structured ([startMarker] ++ (importMarker ++ "X".data) :: []) :=
  import_line_dual_collection [startMarker] [] "X".data (by decide) (by decide)

/-- Claim C10, counterexample: the empty text does not end with a line
break, yet appending a newline changes the line sequence — split_lines ""
is empty while split_lines "\n" is the one-element sequence holding the
empty line. -/
theorem split_lines_empty_counterexample :
    ¬("".data.getLast? = some '\n') ∧
    split_lines ("".data ++ "\n".data) ≠ split_lines "".data ∧
    split_lines "\n".data = [[]] := by
  refine ⟨by decide, by decide, by decide⟩

/-- Claim C10, amended: for every NON-EMPTY text that does not end with a
line break, appending a trailing newline leaves the line sequence
unchanged; for the empty text the two sides differ ([""] versus []). -/
theorem split_lines_trailing_newline (cs : List Char)
    (h1 : cs ≠ []) (h2 : cs.getLast? ≠ some '\n') :
    split_lines (cs ++ "\n".data) = split_lines cs := by
  rw [split_lines, split_lines]
  exact split_on_append_delim '\n' cs h1 h2

/-- Witness for C10 (amended): "a" plus a trailing newline splits like
"a". -/
theorem split_lines_trailing_newline_witness :
    split_lines ("a".data ++ "\n".data) = split_lines "a".data :=
  split_lines_trailing_newline "a".data (by decide) (by decide)
